import Mathlib

/-!
Shallow embedding of the js-toolkit 2D geometry kernel (point / size / rect /
line) and of the CFNumericRange bounded-scalar type, translated from the
TypeScript sources:

* `src/packages/cg-point/src/index.ts`   (class `CGPoint`)
* `src/packages/cg-rect/src/index.ts`    (class `CGRect`)
* `src/unnamed/part_001`                 (class `Rect`, the second rect variant)
* `src/unnamed/part_004`                 (classes `CGRect` and `CGLine`)
* `src/packages/cg-line/src/index.ts`    (class `Line`)
* `src/unnamed/part_000`                 (class `CGSize`)
* `src/packages/cf-numeric-range/src/index.ts` (class `CFNumericRange`)

JavaScript numbers are modelled as rationals (`ℚ`) wherever the code under
scrutiny performs plain arithmetic, and as the four-constructor type `JSNum`
(NaN, the two infinities, and a finite rational) where a claim is about
NaN propagation.  IEEE binary rounding of doubles is not modelled; `-0` is
identified with `0`.  `Math.round` is JavaScript's half-up rounding
`x := floor (x + 1/2)`, which differs from ties-to-even only at ties.
-/

/-- JavaScript `Math.round`: rounds half-way cases toward positive infinity. -/
def jround (x : ℚ) : ℤ := ⌊x + 1/2⌋

/-- A 2-D point with rational coordinates (class `CGPoint`, fields `x`, `y`). -/
structure PointQ where
  x : ℚ
  y : ℚ
deriving DecidableEq, Repr

/-- An axis-aligned rectangle in the flattened `{x, y, width, height}` shape
shared by class `CGRect` (which composes a `CGPoint` origin with a `CGSize`)
and class `Rect` of `src/unnamed/part_001` (which stores the four fields
directly).  The two layouts are observationally the flat quadruple. -/
structure RectQ where
  x : ℚ
  y : ℚ
  width : ℚ
  height : ℚ
deriving DecidableEq, Repr

namespace RectQ

/-- `get maxX() { return this.x + this.width }` (both rect variants). -/
def maxX (r : RectQ) : ℚ := r.x + r.width

/-- `get maxY() { return this.y + this.height }` (both rect variants). -/
def maxY (r : RectQ) : ℚ := r.y + r.height

end RectQ

namespace CGPoint

/-- `negate()` of `CGPoint`: flips the sign of both components in place and
returns the same instance; the model returns the new state of the point. -/
def negate (p : PointQ) : PointQ := ⟨-p.x, -p.y⟩

/-- `add(...points)` of `CGPoint`: folds `this.x += point.x; this.y += point.y`
over the argument list, in argument order. -/
def add (p : PointQ) (points : List PointQ) : PointQ :=
  points.foldl (fun acc q => ⟨acc.x + q.x, acc.y + q.y⟩) p

/-- `subtract(point)` of `CGPoint`: `return this.add(point.negate())`.
`point.negate()` mutates the argument in place, so the call both updates the
receiver and leaves the argument negated.  The model returns the pair
(final state of the receiver, final state of the argument). -/
def subtract (a b : PointQ) : PointQ × PointQ :=
  let b' := negate b
  (add a [b'], b')

/-- `pixelAlign()` of `CGPoint`: `Math.round` both coordinates. -/
def pixelAlign (p : PointQ) : PointQ :=
  ⟨(jround p.x : ℚ), (jround p.y : ℚ)⟩

end CGPoint

namespace CGRect

/-- `inflate(delta)` of class `CGRect` (`cg-rect/src/index.ts` lines 274-281
and `src/unnamed/part_004` lines 237-244): `this.origin.add({x: delta,
y: delta})` then `this.size.set({width: this.width - 1 * delta, height:
this.height - 1 * delta})` (the size setter with no aspect lock stores both
supplied dimensions verbatim). -/
def inflate (r : RectQ) (delta : ℚ) : RectQ :=
  ⟨r.x + delta, r.y + delta, r.width - 1 * delta, r.height - 1 * delta⟩

/-- `pixelAlign()` of `CGRect` (identical body in `Rect` of part_001):
round the origin, separately round the far edges, recompute the extents from
the rounded edges and clamp them to be nonnegative. -/
def pixelAlign (r : RectQ) : RectQ :=
  let x : ℤ := jround r.x
  let y : ℤ := jround r.y
  let rectMaxX : ℤ := jround (r.x + r.width)
  let rectMaxY : ℤ := jround (r.y + r.height)
  let width : ℤ := max (rectMaxX - x) 0
  let height : ℤ := max (rectMaxY - y) 0
  ⟨(x : ℚ), (y : ℚ), (width : ℚ), (height : ℚ)⟩

/-- `static overlapsHorizontally(rectA, rectB)` of `CGRect`
(`src/unnamed/part_004` lines 288-292): `aMax > rectB.x && bMax > rectA.x`. -/
def overlapsHorizontally (rectA rectB : RectQ) : Bool :=
  decide (rectA.maxX > rectB.x) && decide (rectB.maxX > rectA.x)

/-- `static overlapsVertically(rectA, rectB)` of `CGRect`
(`src/unnamed/part_004` lines 297-301). -/
def overlapsVertically (rectA rectB : RectQ) : Bool :=
  decide (rectA.maxY > rectB.y) && decide (rectB.maxY > rectA.y)

/-- `static overlaps(rectA, rectB)` of `CGRect` (`src/unnamed/part_004`
lines 306-311): horizontal overlap OR vertical overlap. -/
def overlaps (rectA rectB : RectQ) : Bool :=
  overlapsHorizontally rectA rectB || overlapsVertically rectA rectB

/-- `intersects(rect)` of `CGRect` (`src/unnamed/part_004` lines 351-358,
same test in `cg-rect/src/index.ts` and part_001). -/
def intersects (a b : RectQ) : Bool :=
  decide (a.x < b.maxX) && decide (a.y < b.maxY) &&
    decide (a.maxX > b.x) && decide (a.maxY > b.y)

end CGRect

namespace Rect

/-- `inflate(value)` of class `Rect` (`src/unnamed/part_001` lines 214-224):
early-returns when the delta is zero, otherwise moves the origin by
`(-value, -value)` and grows both extents by `2 * value`. -/
def inflate (r : RectQ) (value : ℚ) : RectQ :=
  if value = 0 then r
  else ⟨r.x - value, r.y - value, r.width + 2 * value, r.height + 2 * value⟩

end Rect

namespace CGLine

/-- `static intersection(lineA, lineB)` of `CGLine`
(`src/unnamed/part_004` lines 447-467; the body of `Line.intersection` in
`cg-line/src/index.ts` lines 6-27 is identical with `**2` spelled as a
self-product).  A line is modelled as its (start, end) point pair, which the
method immediately destructures into `a`, `b`, `c`, `d`. -/
def intersection (lineA lineB : PointQ × PointQ) : Option PointQ :=
  let a := lineA.1
  let b := lineA.2
  let c := lineB.1
  let d := lineB.2
  let u := (b.x - a.x) * (d.y - c.y) - (b.y - a.y) * (d.x - c.x)
  if u = 0 then none
  else
    some
      ⟨((a.x ^ 2 + a.y ^ 2) * (d.y - c.y) - (a.y ^ 2 + a.x ^ 2) * (d.x - c.x)) / u,
       ((b.x ^ 2 + b.y ^ 2) * (a.y - c.y) - (b.y ^ 2 + b.x ^ 2) * (a.x - c.x)) / u⟩

end CGLine

/-- A point `p` lies on the infinite line through `a` and `b`: the direction
vector `b - a` and the offset `p - a` are linearly dependent. -/
def onLine (a b p : PointQ) : Prop :=
  (b.x - a.x) * (p.y - a.y) - (b.y - a.y) * (p.x - a.x) = 0

instance (a b p : PointQ) : Decidable (onLine a b p) := by
  unfold onLine; infer_instance

/-- Two closed-open style 1-D intervals `[min1, max1]` and `[min2, max2]`
overlap (strict version, touching endpoints do not count). -/
def intervalOverlap (min1 max1 min2 max2 : ℚ) : Prop :=
  min2 < max1 ∧ min1 < max2

instance (a b c d : ℚ) : Decidable (intervalOverlap a b c d) := by
  unfold intervalOverlap; infer_instance

/- ---------------------------------------------------------------------------
Helper lemmas
--------------------------------------------------------------------------- -/

theorem jround_intCast (n : ℤ) : jround (n : ℚ) = n := by
  unfold jround
  have h : ((n : ℚ) + 1/2) = (1/2 + (n : ℚ)) := by ring
  rw [h, Int.floor_add_int]
  norm_num

/- ---------------------------------------------------------------------------
C1 - line intersection
--------------------------------------------------------------------------- -/

/-- C1: the claim states that when the determinant `u` is nonzero the point
returned by the static line intersection lies on both infinite lines.  On the
source's closed form it does not: for lineA through (1,1) and (2,1) (the
horizontal line y = 1) and lineB through (3,0) and (3,5) (the vertical line
x = 3), `u = 5 ≠ 0` and the code returns the point (2,3), which lies on
neither input line, while the true crossing (3,1) does lie on both.  The
`u = 0 ↔ none` half of the claim is visible in the same evaluation
(a point is returned because `u ≠ 0`). -/
theorem C1_line_intersection_failing_input :
    CGLine.intersection (⟨1, 1⟩, ⟨2, 1⟩) (⟨3, 0⟩, ⟨3, 5⟩) = some ⟨2, 3⟩
    ∧ ¬ onLine ⟨1, 1⟩ ⟨2, 1⟩ ⟨2, 3⟩
    ∧ ¬ onLine ⟨3, 0⟩ ⟨3, 5⟩ ⟨2, 3⟩
    ∧ onLine ⟨1, 1⟩ ⟨2, 1⟩ ⟨3, 1⟩
    ∧ onLine ⟨3, 0⟩ ⟨3, 5⟩ ⟨3, 1⟩ := by
  refine ⟨?_, by norm_num [onLine], by norm_num [onLine],
    by norm_num [onLine], by norm_num [onLine]⟩
  norm_num [CGLine.intersection]

/- ---------------------------------------------------------------------------
C4 - inflate
--------------------------------------------------------------------------- -/

/-- C4: the claim says every source variant of `inflate(delta)` moves the
origin by `(-delta, -delta)`.  The `Rect` variant of part_001 does
(evaluated below: origin goes from (0,0) to (-1,-1)), but the `CGRect`
variant of `cg-rect/src/index.ts` adds `delta` to the origin instead,
moving it to (1,1) rather than (-1,-1) — contradicting its own doc comment
"edges moved outwards by the given delta" (for delta = 1 its left and top
edges move inwards and its right and bottom edges stay fixed). -/
theorem C4_inflate_failing_input :
    CGRect.inflate ⟨0, 0, 10, 10⟩ 1 = ⟨1, 1, 9, 9⟩
    ∧ ((CGRect.inflate ⟨0, 0, 10, 10⟩ 1).x ≠ 0 - 1)
    ∧ Rect.inflate ⟨0, 0, 10, 10⟩ 1 = ⟨-1, -1, 12, 12⟩ := by
  refine ⟨by norm_num [CGRect.inflate], by norm_num [CGRect.inflate],
    by norm_num [Rect.inflate]⟩

/- ---------------------------------------------------------------------------
C8 - pixelAlign idempotence
--------------------------------------------------------------------------- -/

/-- C8: `pixelAlign` is idempotent on every rectangle and on every point:
a second application reproduces exactly the coordinates of the first. -/
theorem C8_pixelAlign_idempotent :
    (∀ r : RectQ, CGRect.pixelAlign (CGRect.pixelAlign r) = CGRect.pixelAlign r)
    ∧ (∀ p : PointQ, CGPoint.pixelAlign (CGPoint.pixelAlign p) = CGPoint.pixelAlign p) := by
  have hsum : ∀ a b : ℤ, ((a : ℚ) + ((max (b - a) 0 : ℤ) : ℚ))
      = ((a + max (b - a) 0 : ℤ) : ℚ) := by
    intro a b; push_cast; ring
  have hmax : ∀ a b : ℤ, max (a + max (b - a) 0 - a) 0 = max (b - a) 0 := by
    intro a b; omega
  constructor
  · intro r
    simp only [CGRect.pixelAlign]
    rw [jround_intCast, jround_intCast, hsum, hsum, jround_intCast, jround_intCast,
      hmax, hmax]
  · intro p
    simp only [CGPoint.pixelAlign]
    rw [jround_intCast, jround_intCast]

/- ---------------------------------------------------------------------------
C10 - subtract mutates its argument
--------------------------------------------------------------------------- -/

/-- C10: `a.subtract(b)` negates the argument `b` in place (because it is
implemented as `this.add(point.negate())` and `negate` mutates `point`),
while the receiver ends up holding the old `a` minus the old `b`. -/
theorem C10_subtract_mutates_argument :
    ∀ a b : PointQ,
      (CGPoint.subtract a b).2 = ⟨-b.x, -b.y⟩
      ∧ (CGPoint.subtract a b).1 = ⟨a.x - b.x, a.y - b.y⟩ := by
  intro a b
  unfold CGPoint.subtract CGPoint.add CGPoint.negate
  refine ⟨rfl, ?_⟩
  simp only [List.foldl]
  congr 1 <;> ring

/- ---------------------------------------------------------------------------
JavaScript numbers with NaN and infinities, for the NaN-sensitive claims
--------------------------------------------------------------------------- -/

/-- A JavaScript number: NaN, one of the two infinities, or a finite value
(modelled as a rational; IEEE binary rounding and negative zero are not
modelled, so `x / 0` takes the sign of `x`). -/
inductive JSNum where
  | nan
  | pinf
  | ninf
  | num (q : ℚ)
deriving DecidableEq, Repr

namespace JSNum

/-- `Number.isNaN`. -/
def isNaN : JSNum → Bool
  | nan => true
  | _ => false

/-- JavaScript truthiness of a number: `NaN` and `0` are falsy, every other
number (the infinities included) is truthy. -/
def truthy : JSNum → Bool
  | nan => false
  | num q => decide (q ≠ 0)
  | _ => true

/-- JavaScript `<` on numbers: any comparison involving NaN is false. -/
def lt : JSNum → JSNum → Bool
  | nan, _ => false
  | _, nan => false
  | ninf, ninf => false
  | ninf, _ => true
  | _, ninf => false
  | pinf, _ => false
  | num _, pinf => true
  | num a, num b => decide (a < b)

/-- JavaScript `>` on numbers. -/
def gt (a b : JSNum) : Bool := lt b a

/-- JavaScript `+` on numbers. -/
def add : JSNum → JSNum → JSNum
  | nan, _ => nan
  | _, nan => nan
  | pinf, ninf => nan
  | ninf, pinf => nan
  | pinf, _ => pinf
  | _, pinf => pinf
  | ninf, _ => ninf
  | _, ninf => ninf
  | num a, num b => num (a + b)

/-- JavaScript `*` on numbers. -/
def mul : JSNum → JSNum → JSNum
  | nan, _ => nan
  | _, nan => nan
  | pinf, pinf => pinf
  | pinf, ninf => ninf
  | ninf, pinf => ninf
  | ninf, ninf => pinf
  | pinf, num b => if b = 0 then nan else if 0 < b then pinf else ninf
  | num a, pinf => if a = 0 then nan else if 0 < a then pinf else ninf
  | ninf, num b => if b = 0 then nan else if 0 < b then ninf else pinf
  | num a, ninf => if a = 0 then nan else if 0 < a then ninf else pinf
  | num a, num b => num (a * b)

/-- JavaScript `/` on numbers. -/
def div : JSNum → JSNum → JSNum
  | nan, _ => nan
  | _, nan => nan
  | pinf, pinf => nan
  | pinf, ninf => nan
  | ninf, pinf => nan
  | ninf, ninf => nan
  | pinf, num b => if b < 0 then ninf else pinf
  | ninf, num b => if b < 0 then pinf else ninf
  | num _, pinf => num 0
  | num _, ninf => num 0
  | num a, num b =>
      if b = 0 then (if a = 0 then nan else if 0 < a then pinf else ninf)
      else num (a / b)

theorem lt_nan_left (x : JSNum) : lt nan x = false := by cases x <;> rfl

theorem lt_nan_right (x : JSNum) : lt x nan = false := by cases x <;> rfl

end JSNum

/-- Class `CGSize` of `src/unnamed/part_000`, over JavaScript numbers
(the aspect-ratio claim is about NaN and zero ratios). -/
structure CGSize where
  width : JSNum
  height : JSNum
deriving DecidableEq, Repr

namespace CGSize

/-- `get aspectRatio() { return this.width / this.height }`. -/
def aspectRatio (s : CGSize) : JSNum := s.width.div s.height

/-- `set(size, lockAspectRatio)` of `CGSize` (`src/unnamed/part_000` lines
143-160).  `size` is a partial record; `none` models an absent field
(`size.width == null`).  When `lockAspectRatio` is true: a missing width with
a supplied height is replaced by `size.height * this.aspectRatio`
(unconditionally), and a missing height with a supplied width is replaced by
`size.width / this.aspectRatio` but only under the extra guard
`this.aspectRatio` (truthiness). -/
def set (s : CGSize) (width? height? : Option JSNum) (lockAspectRatio : Bool) :
    CGSize :=
  let width := width?.getD s.width
  let height := height?.getD s.height
  let width :=
    if lockAspectRatio then
      match width?, height? with
      | none, some h => h.mul s.aspectRatio
      | _, _ => width
    else width
  let height :=
    if lockAspectRatio then
      match width?, height? with
      | some w, none => if s.aspectRatio.truthy then w.div s.aspectRatio else height
      | _, _ => height
    else height
  ⟨width, height⟩

end CGSize

/-- A point with JavaScript-number coordinates (for `containsPoint`). -/
structure JSPoint where
  x : JSNum
  y : JSNum
deriving DecidableEq, Repr

/-- A rectangle with JavaScript-number fields (for `containsPoint`). -/
structure JSRect where
  x : JSNum
  y : JSNum
  width : JSNum
  height : JSNum
deriving DecidableEq, Repr

namespace JSRect

/-- `get minX() { return this.x }`. -/
def minX (r : JSRect) : JSNum := r.x

/-- `get maxX() { return this.x + this.width }`. -/
def maxX (r : JSRect) : JSNum := r.x.add r.width

/-- `get minY() { return this.y }`. -/
def minY (r : JSRect) : JSNum := r.y

/-- `get maxY() { return this.y + this.height }`. -/
def maxY (r : JSRect) : JSNum := r.y.add r.height

end JSRect

/-- `containsPoint(point)` — identical bodies in `CGRect`
(`cg-rect/src/index.ts` lines 332-343, `src/unnamed/part_004` lines 323-334)
and `Rect` (`src/unnamed/part_001` lines 279-290): four inclusive bound
rejections, then the two NaN rejections on the rectangle's own origin,
then `true`. -/
def CGRect.containsPoint (r : JSRect) (point : JSPoint) : Bool :=
  if point.x.lt r.minX then false
  else if point.x.gt r.maxX then false
  else if point.y.lt r.minY then false
  else if point.y.gt r.maxY then false
  else if r.x.isNaN then false
  else if r.y.isNaN then false
  else true

/- ---------------------------------------------------------------------------
C3 - aspect-locked Size.set with a falsy current aspect ratio
--------------------------------------------------------------------------- -/

/-- C3 counterexample: the claim says that with `lockAspectRatio = true` and
only a height supplied, a falsy current aspect ratio skips aspect-locking and
leaves the width at its current value.  On a 0×0 size (aspect ratio
`0/0 = NaN`), supplying only `height = 5` stores `width = 5 * NaN = NaN`:
the guard exists only in the width-supplied branch of the source. -/
theorem C3_set_height_only_counterexample :
    CGSize.set ⟨JSNum.num 0, JSNum.num 0⟩ none (some (JSNum.num 5)) true
      = ⟨JSNum.nan, JSNum.num 5⟩
    ∧ JSNum.nan ≠ JSNum.num 0 := by
  exact ⟨rfl, by simp⟩

/-- C3 amended: the falsy-aspect-ratio skip holds in the width-only-supplied
case (the only guarded branch): the supplied width is stored and the height
is left at its current value.  In the height-only-supplied case the width is
derived from the current aspect ratio with no guard (see the
counterexample). -/
theorem C3_set_width_only_skips_lock (s : CGSize) (w : JSNum)
    (h : s.aspectRatio.truthy = false) :
    CGSize.set s (some w) none true = ⟨w, s.height⟩ := by
  simp [CGSize.set, h]

/-- C3 witness: a 2×0 size has aspect ratio `2/0 = Infinity`, which is
truthy, so instead take the 0×3 size whose ratio is `0/3 = 0` (falsy):
supplying only `width = 7` stores it and keeps the height at 3. -/
theorem C3_set_width_only_skips_lock_witness :
    (CGSize.aspectRatio ⟨JSNum.num 0, JSNum.num 3⟩).truthy = false
    ∧ CGSize.set ⟨JSNum.num 0, JSNum.num 3⟩ (some (JSNum.num 7)) none true
        = ⟨JSNum.num 7, JSNum.num 3⟩ := by
  have h : (CGSize.aspectRatio ⟨JSNum.num 0, JSNum.num 3⟩).truthy = false := by
    norm_num [CGSize.aspectRatio, JSNum.div, JSNum.truthy]
  exact ⟨h, C3_set_width_only_skips_lock _ _ h⟩

/- ---------------------------------------------------------------------------
C9 - containsPoint accepts the all-NaN point
--------------------------------------------------------------------------- -/

/-- C9: for every rectangle whose own `x` and `y` are not NaN — whatever its
width and height — `containsPoint` returns true on the point whose two
coordinates are both NaN: each bound comparison against NaN is false, so no
rejection fires and the method falls through to `true`. -/
theorem C9_containsPoint_nan_point (r : JSRect)
    (hx : r.x.isNaN = false) (hy : r.y.isNaN = false) :
    CGRect.containsPoint r ⟨JSNum.nan, JSNum.nan⟩ = true := by
  simp [CGRect.containsPoint, JSNum.gt, JSNum.lt_nan_left, JSNum.lt_nan_right,
    hx, hy]

/-- C9 witness: the rectangle (0, 0, 5, 5) — an ordinary rectangle — reports
that it contains the (NaN, NaN) point. -/
theorem C9_containsPoint_nan_point_witness :
    (JSNum.num 0).isNaN = false
    ∧ CGRect.containsPoint ⟨JSNum.num 0, JSNum.num 0, JSNum.num 5, JSNum.num 5⟩
        ⟨JSNum.nan, JSNum.nan⟩ = true :=
  ⟨rfl, C9_containsPoint_nan_point _ rfl rfl⟩

/- ---------------------------------------------------------------------------
C6 - overlaps versus intersects
--------------------------------------------------------------------------- -/

/-- C6: `overlaps` is true exactly when the two boxes overlap on the X axis
or on the Y axis independently, each axis as a 1-D interval-overlap check;
it is a looser relation than the 2-D `intersects` test (pointwise
`intersects ≤ overlaps` on booleans), strictly so: the boxes (0,0,10,10) and
(5,20,10,10) overlap on the X axis only, so `overlaps` holds while
`intersects` fails. -/
theorem C6_overlaps_axis_disjunction :
    (∀ a b : RectQ, CGRect.overlaps a b = true ↔
      (intervalOverlap a.x a.maxX b.x b.maxX ∨ intervalOverlap a.y a.maxY b.y b.maxY))
    ∧ (∀ a b : RectQ, CGRect.intersects a b ≤ CGRect.overlaps a b)
    ∧ CGRect.overlaps ⟨0, 0, 10, 10⟩ ⟨5, 20, 10, 10⟩ = true
    ∧ CGRect.intersects ⟨0, 0, 10, 10⟩ ⟨5, 20, 10, 10⟩ = false := by
  have key : ∀ a b : RectQ, CGRect.intersects a b = true → CGRect.overlaps a b = true := by
    intro a b h
    simp only [CGRect.intersects, Bool.and_eq_true, decide_eq_true_eq] at h
    simp only [CGRect.overlaps, CGRect.overlapsHorizontally, CGRect.overlapsVertically,
      Bool.or_eq_true, Bool.and_eq_true, decide_eq_true_eq]
    tauto
  refine ⟨?_, ?_, ?_, ?_⟩
  · intro a b
    simp only [CGRect.overlaps, CGRect.overlapsHorizontally, CGRect.overlapsVertically,
      Bool.or_eq_true, Bool.and_eq_true, decide_eq_true_eq, intervalOverlap]
  · intro a b
    cases hi : CGRect.intersects a b
    · exact Bool.false_le _
    · rw [key a b hi]
  · norm_num [CGRect.overlaps, CGRect.overlapsHorizontally, CGRect.overlapsVertically,
      RectQ.maxX, RectQ.maxY]
  · norm_num [CGRect.intersects, RectQ.maxX, RectQ.maxY]

/- ---------------------------------------------------------------------------
CFNumericRange (src/packages/cf-numeric-range/src/index.ts)
--------------------------------------------------------------------------- -/

/-- The options object passed to the `CFNumericRange` constructor; `none`
models an absent field, to which the constructor's destructuring applies the
defaults `min = 0, max = 100, step = 1, value = 0` (no default for
`precision`).  The value field is taken numeric: the claims settled here
evaluate the string-valued states through `parse`, which is the identity on
the decimal rendering of these rationals. -/
structure CFNumericRangeOptions where
  min : Option ℚ
  max : Option ℚ
  precision : Option ℕ
  step : Option ℚ
  value : Option ℚ
deriving DecidableEq, Repr

/-- The state of a `CFNumericRange` instance.  `value` is kept as the
rational the stored string/number parses to (`valueOf` re-parses it on every
read; on the decimal strings produced by `toFixed` the re-parse is exact). -/
structure CFNumericRange where
  min : ℚ
  max : ℚ
  precision : Option ℕ
  step : ℚ
  stepPrecision : ℕ
  value : ℚ
deriving DecidableEq, Repr

/-- `countDecimals(value)` (`cf-numeric-range/src/index.ts` lines 331-341):
`while (Math.round(value * e) / e !== value) { e *= 10; p += 1 }` with
`e = 10 ^ p`.  The unbounded source loop always terminates on IEEE doubles;
the model bounds it with fuel far beyond any double's decimal count.  The
`isNumeric` guard is a tautology on numbers and is dropped. -/
def countDecimalsAux (value : ℚ) : ℕ → ℕ → ℕ
  | 0, p => p
  | fuel + 1, p =>
      if ((jround (value * 10 ^ p) : ℚ) / 10 ^ p) = value then p
      else countDecimalsAux value fuel (p + 1)

/-- `countDecimals(value)`: decimal-digit count of a value. -/
def countDecimals (value : ℚ) : ℕ := countDecimalsAux value 100 0

/-- `toFixed(value, decimals)` (`cf-numeric-range/src/index.ts` lines
349-360): scales by `10 ** (decimals ?? 10)`, `Math.round`s, and scales
back.  The final string rendering (`toFixed(decimals)` when `decimals` is a
truthy number, `toString()` otherwise) re-parses to exactly this rational,
so the model returns the rational itself. -/
def toFixed (value : ℚ) (decimals : Option ℕ) : ℚ :=
  let scaleFactor : ℚ := 10 ^ (decimals.getD 10)
  (jround (value * scaleFactor) : ℚ) / scaleFactor

/-- The `CFNumericRange` constructor (`cf-numeric-range/src/index.ts` lines
58-72): applies the destructuring defaults, throws a `RangeError` (modelled
as `Except.error`) when `max < min`, and otherwise initializes every field,
deriving `stepPrecision` from the step. -/
def mkCFNumericRange (options : CFNumericRangeOptions) :
    Except String CFNumericRange :=
  let mn := options.min.getD 0
  let mx := options.max.getD 100
  let st := options.step.getD 1
  let va := options.value.getD 0
  if mx < mn then Except.error "clamp: max cannot be less than min"
  else Except.ok
    { min := mn, max := mx, precision := options.precision, step := st,
      stepPrecision := countDecimals st, value := va }

namespace CFNumericRange

/-- `valueOf()`: parses the stored value; on the numeric states modelled
here this is the stored rational. -/
def valueOf (r : CFNumericRange) : ℚ := r.value

/-- `clamp()` (`cf-numeric-range/src/index.ts` lines 274-279):
`value = Math.min(Math.max(this.valueOf(), this.min), this.max)` then
`this.value = toFixed(value, this.precision)` (the explicit precision only,
not `computedPrecision`). -/
def clamp (r : CFNumericRange) : CFNumericRange :=
  let value := Min.min (Max.max r.valueOf r.min) r.max
  { r with value := toFixed value r.precision }

end CFNumericRange

/- ---------------------------------------------------------------------------
C7 - constructor validation
--------------------------------------------------------------------------- -/

/-- C7: constructing with `min = 6, max = 2` yields the range error and no
instance (the `Except.error` branch carries no `CFNumericRange`), and in
general construction succeeds exactly when `min ≤ max` after the defaults
are applied — so no such error is raised whenever `min ≤ max`. -/
theorem C7_construction_validation :
    mkCFNumericRange ⟨some 6, some 2, none, none, none⟩
      = Except.error "clamp: max cannot be less than min"
    ∧ ∀ o : CFNumericRangeOptions,
        ((mkCFNumericRange o).isOk = true ↔ o.min.getD 0 ≤ o.max.getD 100) := by
  constructor
  · norm_num [mkCFNumericRange]
  · intro o
    simp only [mkCFNumericRange]
    by_cases h : o.max.getD 100 < o.min.getD 0
    · rw [if_pos h]
      exact iff_of_false (by simp [Except.isOk, Except.toBool]) (not_le.mpr h)
    · rw [if_neg h]
      exact iff_of_true rfl (le_of_not_lt h)

/- ---------------------------------------------------------------------------
C2 - clamp closure
--------------------------------------------------------------------------- -/

/-- C2 counterexample: with `min = 0`, `max = 9.5`, `value = 9.5` and the
explicit precision 0, `clamp()` clips the value to 9.5 and then reformats it
at 0 decimals, rounding it to 10 — outside `[min, max]`.  The claim that
`clamp().valueOf()` always lies in `[min, max]` is therefore false. -/
theorem C2_clamp_counterexample :
    (CFNumericRange.clamp ⟨0, 19/2, some 0, 1, 0, 19/2⟩).value = 10
    ∧ ¬ ((CFNumericRange.clamp ⟨0, 19/2, some 0, 1, 0, 19/2⟩).value ≤ 19/2) := by
  have hmax : Max.max (19/2 : ℚ) 0 = 19/2 := max_eq_left (by norm_num)
  have hmin : Min.min (19/2 : ℚ) (19/2) = 19/2 := min_self _
  have h : (CFNumericRange.clamp ⟨0, 19/2, some 0, 1, 0, 19/2⟩).value = 10 := by
    simp only [CFNumericRange.clamp, CFNumericRange.valueOf, toFixed, hmax, hmin]
    norm_num [jround]
  exact ⟨h, by rw [h]; norm_num⟩

/-- C2 amended: for a numeric value and `min ≤ max`, the clipped value lies
in `[min, max]`, and the stored result only deviates from it by the final
reformatting: `clamp().valueOf()` lies in `[min, max]` widened by half a
unit in the last formatted decimal place, `1 / (2 · 10^p)`, where `p` is the
explicit precision when set and the internal default of 10 digits
otherwise. -/
theorem C2_clamp_within_half_ulp (r : CFNumericRange) (h : r.min ≤ r.max) :
    r.min - 1 / (2 * 10 ^ (r.precision.getD 10)) ≤ (CFNumericRange.clamp r).value
    ∧ (CFNumericRange.clamp r).value ≤ r.max + 1 / (2 * 10 ^ (r.precision.getD 10)) := by
  have hs : (0 : ℚ) < 10 ^ (r.precision.getD 10) := by positivity
  set s : ℚ := 10 ^ (r.precision.getD 10) with hs_def
  set c : ℚ := Min.min (Max.max r.value r.min) r.max with hc_def
  have hc1 : r.min ≤ c := le_min (le_max_right _ _) h
  have hc2 : c ≤ r.max := min_le_right _ _
  have hub : (jround (c * s) : ℚ) ≤ c * s + 1/2 := by
    unfold jround
    exact_mod_cast Int.floor_le (c * s + 1/2)
  have hlb : c * s - 1/2 ≤ (jround (c * s) : ℚ) := by
    unfold jround
    have hfl := Int.lt_floor_add_one (c * s + 1/2)
    push_cast at hfl ⊢
    linarith
  have hclamp : (CFNumericRange.clamp r).value = (jround (c * s) : ℚ) / s := by
    simp only [CFNumericRange.clamp, CFNumericRange.valueOf, toFixed]
  have hdivub : (jround (c * s) : ℚ) / s ≤ c + 1 / (2 * s) := by
    rw [div_le_iff₀ hs]
    have : (c + 1 / (2 * s)) * s = c * s + 1/2 := by
      field_simp
      ring
    linarith [hub, this]
  have hdivlb : c - 1 / (2 * s) ≤ (jround (c * s) : ℚ) / s := by
    rw [le_div_iff₀ hs]
    have : (c - 1 / (2 * s)) * s = c * s - 1/2 := by
      field_simp
      ring
    linarith [hlb, this]
  rw [hclamp]
  exact ⟨by linarith, by linarith⟩

/-- C2 witness: the range `min = 0, max = 10, value = 5` with no explicit
precision: the clamped value stays within the widened interval. -/
theorem C2_clamp_within_half_ulp_witness :
    (0 : ℚ) ≤ 10
    ∧ ((0 : ℚ) - 1 / (2 * 10 ^ (10 : ℕ))
          ≤ (CFNumericRange.clamp ⟨0, 10, none, 1, 0, 5⟩).value
        ∧ (CFNumericRange.clamp ⟨0, 10, none, 1, 0, 5⟩).value
          ≤ 10 + 1 / (2 * 10 ^ (10 : ℕ))) := by
  refine ⟨by norm_num, ?_⟩
  have h := C2_clamp_within_half_ulp ⟨0, 10, none, 1, 0, 5⟩ (by norm_num)
  simpa using h

/- ---------------------------------------------------------------------------
C5 - range iteration
--------------------------------------------------------------------------- -/

/-- One-step unfolding of the `[Symbol.iterator]` generator of
`CFNumericRange` (`cf-numeric-range/src/index.ts` lines 157-163):
`let current = this.min; while (current <= this.max) { yield current;
current += this.step }`.  The loop is unbounded, so it is embedded with
explicit fuel: the loop from `current` produces the list `l` exactly when
`rangeIterAux max step fuel current = some l` for some fuel (running out of
fuel yields `none`, never a wrong list). -/
def rangeIterAux (mx st : ℚ) : ℕ → ℚ → Option (List ℚ)
  | 0, _ => none
  | fuel + 1, current =>
      if current ≤ mx then
        (rangeIterAux mx st fuel (current + st)).map (fun rest => current :: rest)
      else some []

/-- The iteration protocol of a range: a fresh generator starting at
`this.min` terminates and produces `l`.  The generator closes over nothing
but `min`, `max` and `step`, so every fresh traversal restarts from `min`. -/
def rangeYields (r : CFNumericRange) (l : List ℚ) : Prop :=
  ∃ fuel, rangeIterAux r.max r.step fuel r.min = some l

/-- Number of loop iterations performed by the range generator from
`current = c` (for a positive step). -/
def iterCount (mx st c : ℚ) : ℕ :=
  if c ≤ mx then (⌊(mx - c) / st⌋).toNat + 1 else 0

/-- Closed form of the list produced by the range generator from `c`. -/
def iterList (mx st c : ℚ) : List ℚ :=
  (List.range (iterCount mx st c)).map (fun k : ℕ => c + (k : ℚ) * st)

theorem iterCount_step (mx st c : ℚ) (hst : 0 < st) (hc : c ≤ mx) :
    iterCount mx st c = iterCount mx st (c + st) + 1 := by
  unfold iterCount
  rw [if_pos hc]
  by_cases h2 : c + st ≤ mx
  · rw [if_pos h2]
    have hstne : st ≠ 0 := ne_of_gt hst
    have he : (mx - (c + st)) / st = (mx - c) / st - 1 := by
      field_simp
      ring
    have hge : 1 ≤ ⌊(mx - c) / st⌋ := by
      rw [Int.le_floor]
      push_cast
      rw [le_div_iff₀ hst]
      linarith
    rw [he]
    have : ⌊(mx - c) / st - 1⌋ = ⌊(mx - c) / st⌋ - 1 := by
      exact_mod_cast Int.floor_sub_int ((mx - c) / st) 1
    rw [this]
    omega
  · rw [if_neg h2]
    have h0 : ⌊(mx - c) / st⌋ = 0 := by
      rw [Int.floor_eq_zero_iff, Set.mem_Ico]
      constructor
      · apply div_nonneg (by linarith) hst.le
      · rw [div_lt_one hst]
        linarith
    rw [h0]
    rfl

theorem rangeIterAux_correct (mx st : ℚ) (hst : 0 < st) :
    ∀ fuel c, iterCount mx st c < fuel →
      rangeIterAux mx st fuel c = some (iterList mx st c) := by
  intro fuel
  induction fuel with
  | zero => intro c hlt; exact absurd hlt (Nat.not_lt_zero _)
  | succ n ih =>
    intro c hlt
    rw [rangeIterAux]
    by_cases hc : c ≤ mx
    · rw [if_pos hc]
      have hstep := iterCount_step mx st c hst hc
      have hlt2 : iterCount mx st (c + st) < n := by omega
      rw [ih (c + st) hlt2]
      rw [Option.map_some']
      congr 1
      unfold iterList
      rw [hstep, List.range_succ_eq_map]
      simp only [List.map_cons, List.map_map]
      congr 1
      · push_cast
        ring
      · apply List.map_congr_left
        intro k _
        simp only [Function.comp_apply]
        push_cast
        ring
    · rw [if_neg hc]
      congr 1
      unfold iterList iterCount
      rw [if_neg hc]
      rfl

theorem rangeIterAux_det (mx st : ℚ) :
    ∀ f1 f2 c l1 l2, rangeIterAux mx st f1 c = some l1 →
      rangeIterAux mx st f2 c = some l2 → l1 = l2 := by
  intro f1
  induction f1 with
  | zero =>
    intro f2 c l1 l2 h1 _
    simp [rangeIterAux] at h1
  | succ n ih =>
    intro f2 c l1 l2 h1 h2
    cases f2 with
    | zero => simp [rangeIterAux] at h2
    | succ m =>
      rw [rangeIterAux] at h1 h2
      by_cases hc : c ≤ mx
      · rw [if_pos hc] at h1 h2
        cases hr1 : rangeIterAux mx st n (c + st) with
        | none => rw [hr1] at h1; simp at h1
        | some r1 =>
          cases hr2 : rangeIterAux mx st m (c + st) with
          | none => rw [hr2] at h2; simp at h2
          | some r2 =>
            rw [hr1] at h1
            rw [hr2] at h2
            rw [Option.map_some'] at h1 h2
            simp only [Option.some.injEq] at h1 h2
            have hr : r1 = r2 := ih m (c + st) r1 r2 hr1 hr2
            rw [← h1, ← h2, hr]
      · rw [if_neg hc] at h1 h2
        simp only [Option.some.injEq] at h1 h2
        rw [← h1, ← h2]

/-- C5 counterexample: the claim says iteration always "ends at max
inclusive".  For `min = 0, max = 10, step = 3` the generator terminates and
yields `[0, 3, 6, 9]`: the last element is 9, not the max 10 — the sequence
stops at the largest `min + k·step` not exceeding max. -/
theorem C5_iteration_counterexample :
    rangeYields ⟨0, 10, none, 3, 0, 0⟩ [0, 3, 6, 9]
    ∧ ([0, 3, 6, 9] : List ℚ).getLast? = some 9
    ∧ (9 : ℚ) ≠ 10 := by
  refine ⟨⟨iterCount 10 3 0 + 1, ?_⟩, by rfl, by norm_num⟩
  have h := rangeIterAux_correct 10 3 (by norm_num) (iterCount 10 3 0 + 1) 0
    (by omega)
  rw [h]
  congr 1
  have hcount : iterCount 10 3 0 = 4 := by
    unfold iterCount
    rw [if_pos (by norm_num)]
    norm_num
    decide
  unfold iterList
  rw [hcount]
  norm_num [List.range_succ]

/-- C5 amended: for every positive step, a fresh traversal of the range
terminates and yields exactly the finite arithmetic sequence
`min, min + step, …, min + k·step` of all values not exceeding max (empty
when max < min); this list is the unique possible outcome of the loop
(every traversal restarts from `min`: the produced list depends only on
`min`, `max`, `step`), it starts at `min` when `min ≤ max`, and every
element is at most `max` — the last element equals `max` only when
`max - min` is an exact multiple of the step, not in general. -/
theorem C5_iteration_closed_form (mn mx st : ℚ) (hst : 0 < st) :
    rangeYields ⟨mn, mx, none, st, 0, 0⟩ (iterList mx st mn)
    ∧ (∀ l, rangeYields ⟨mn, mx, none, st, 0, 0⟩ l → l = iterList mx st mn)
    ∧ (∀ q ∈ iterList mx st mn, q ≤ mx)
    ∧ (mn ≤ mx → (iterList mx st mn).head? = some mn) := by
  refine ⟨⟨iterCount mx st mn + 1,
      rangeIterAux_correct mx st hst _ mn (by omega)⟩, ?_, ?_, ?_⟩
  · rintro l ⟨fuel, hf⟩
    exact rangeIterAux_det mx st fuel (iterCount mx st mn + 1) mn l _ hf
      (rangeIterAux_correct mx st hst _ mn (by omega))
  · intro q hq
    simp only [iterList, List.mem_map, List.mem_range] at hq
    obtain ⟨k, hk, rfl⟩ := hq
    unfold iterCount at hk
    by_cases hc : mn ≤ mx
    · rw [if_pos hc] at hk
      have hfl : 0 ≤ ⌊(mx - mn) / st⌋ :=
        Int.floor_nonneg.mpr (div_nonneg (by linarith) hst.le)
      have hkz : (k : ℤ) ≤ ⌊(mx - mn) / st⌋ := by omega
      have hkq : (k : ℚ) ≤ (mx - mn) / st := by
        have h2 := Int.le_floor.mp hkz
        exact_mod_cast h2
      rw [le_div_iff₀ hst] at hkq
      linarith
    · rw [if_neg hc] at hk
      omega
  · intro h
    unfold iterList iterCount
    rw [if_pos h, List.range_succ_eq_map]
    simp

/-- C5 witness: for the concrete range `min = 0, max = 10, step = 1` the
traversal yields precisely the 11 elements `[0, 1, …, 10]`, inclusive of
both endpoints. -/
theorem C5_iteration_closed_form_witness :
    (0 : ℚ) < 1
    ∧ rangeYields ⟨0, 10, none, 1, 0, 0⟩ (iterList 10 1 0)
    ∧ iterList 10 1 0 = [0, 1, 2, 3, 4, 5, 6, 7, 8, 9, 10] := by
  refine ⟨by norm_num, (C5_iteration_closed_form 0 10 1 (by norm_num)).1, ?_⟩
  have hcount : iterCount 10 1 0 = 11 := by
    unfold iterCount
    rw [if_pos (by norm_num)]
    norm_num
    decide
  unfold iterList
  rw [hcount]
  norm_num [List.range_succ]
